import Mathlib

/-!
Shallow embedding of the forecast-accuracy dashboard (src/app.py) and
verification of its specification claims.

The program is a pandas script.  Measures are embedded as rationals;
pandas NA propagation is embedded with Option, and float NaN/Infinity
results of zero-denominator division with an explicit value type PVal.
-/

namespace ForecastApp

/-- pandas Series.clip(0, 100): values below 0 become 0, above 100 become 100. -/
def clip0100 (x : ℚ) : ℚ :=
  min 100 (max 0 x)

/-- Forecast Accuracy of the Accuracy Overview tab, src/app.py lines 200-214:
Disparity Kg = Forecast Kg - Yield Kg; Abs_Disparity_Kg = abs;
accuracy = (1 - Abs_Disparity_Kg / YieldKg.replace(0, NA)) * 100, then
.fillna(0).clip(0, 100).  A zero yield makes the denominator NA, the whole
expression NA, and fillna maps it to 0. -/
def forecastAccuracyOverview (yieldKg forecastKg : ℚ) : ℚ :=
  let disparityKg := forecastKg - yieldKg
  let absDisparityKg := |disparityKg|
  let raw : Option ℚ :=
    if yieldKg = 0 then none else some ((1 - absDisparityKg / yieldKg) * 100)
  clip0100 (raw.getD 0)

/-- Forecast Accuracy of the Weekly Analysis chart pipeline, src/app.py lines
379-394: identical fillna(0).clip(0,100) chain over Actual Kg / Forecast Kg. -/
def forecastAccuracyWeeklyPlot (actualKg forecastKg : ℚ) : ℚ :=
  let disparityKg := forecastKg - actualKg
  let absDisparityKg := |disparityKg|
  let raw : Option ℚ :=
    if actualKg = 0 then none else some ((1 - absDisparityKg / actualKg) * 100)
  clip0100 (raw.getD 0)

/-- Forecast Accuracy of the Weekly Analysis KPI pipeline, src/app.py lines
531-545: identical fillna(0).clip(0,100) chain over Actual Kg / Forecast Kg. -/
def forecastAccuracyWeeklyKpi (actualKg forecastKg : ℚ) : ℚ :=
  let disparityKg := forecastKg - actualKg
  let absDisparityKg := |disparityKg|
  let raw : Option ℚ :=
    if actualKg = 0 then none else some ((1 - absDisparityKg / actualKg) * 100)
  clip0100 (raw.getD 0)

lemma clip0100_mem (x : ℚ) : 0 ≤ clip0100 x ∧ clip0100 x ≤ 100 :=
  ⟨le_min (by norm_num) (le_max_left 0 x), min_le_left _ _⟩

lemma accuracy_overview_zero (f : ℚ) : forecastAccuracyOverview 0 f = 0 := by
  simp [forecastAccuracyOverview, clip0100]

/-- Claim C1: for every metric row, if the actual measure is exactly zero then
the computed forecast accuracy equals 0, regardless of the forecast value
(including actual = 0, forecast = 0, scored 0 and raising no error), in the
Accuracy Overview pipeline and in both Weekly Analysis pipelines. -/
theorem zero_actual_scores_zero (f : ℚ) :
    forecastAccuracyOverview 0 f = 0 ∧
    forecastAccuracyWeeklyPlot 0 f = 0 ∧
    forecastAccuracyWeeklyKpi 0 f = 0 := by
  refine ⟨accuracy_overview_zero f, ?_, ?_⟩ <;>
    simp [forecastAccuracyWeeklyPlot, forecastAccuracyWeeklyKpi, clip0100]

/-- Claim C2: in each of the three pipelines, the computed forecast accuracy
lies in the closed interval from 0 to 100, for every actual and forecast
value. -/
theorem accuracy_bounds (a f : ℚ) :
    (0 ≤ forecastAccuracyOverview a f ∧ forecastAccuracyOverview a f ≤ 100) ∧
    (0 ≤ forecastAccuracyWeeklyPlot a f ∧ forecastAccuracyWeeklyPlot a f ≤ 100) ∧
    (0 ≤ forecastAccuracyWeeklyKpi a f ∧ forecastAccuracyWeeklyKpi a f ≤ 100) :=
  ⟨clip0100_mem _, clip0100_mem _, clip0100_mem _⟩

/-! KPI helper and weighted accuracy.  PVal embeds the pandas float values
that can come out of a division: a number, NaN, or a signed infinity. -/

inductive PVal where
  | num (q : ℚ)
  | nan
  | posInf
  | negInf
deriving DecidableEq

def PVal.isna : PVal → Bool
  | .nan => true
  | _ => false

def PVal.isNum : PVal → Bool
  | .num _ => true
  | _ => false

/-- Float division as pandas performs it on its (positive-zero) sums: a zero
denominator yields NaN when the numerator is zero and a signed infinity
otherwise; any other denominator yields the exact quotient. -/
def fdiv (a b : ℚ) : PVal :=
  if b = 0 then (if a = 0 then .nan else if 0 < a then .posInf else .negInf)
  else .num (a / b)

/-- One row of the tables handed to compute_kpis: the columns the function
reads are Forecast Accuracy, Actual Kg and Abs_Disparity_Kg. -/
structure KpiRow where
  forecastAccuracy : ℚ
  actualKg : ℚ
  absDisparityKg : ℚ
deriving DecidableEq

/-- compute_kpis, src/app.py lines 21-34: if the table is empty or the Actual
Kg column sums to zero it returns (None, None, None); otherwise it returns
the actual-weighted mean of Forecast Accuracy, the mean of Abs_Disparity_Kg,
and the sum of Abs_Disparity_Kg. -/
def compute_kpis (df : List KpiRow) : Option ℚ × Option ℚ × Option ℚ :=
  if df = [] ∨ (df.map (fun r => r.actualKg)).sum = 0 then (none, none, none)
  else
    ( some ((df.map (fun r => r.forecastAccuracy * r.actualKg)).sum
            / (df.map (fun r => r.actualKg)).sum)
    , some ((df.map (fun r => r.absDisparityKg)).sum / (df.length : ℚ))
    , some ((df.map (fun r => r.absDisparityKg)).sum) )

/-- One row of the weekly table of the Accuracy Overview tab, restricted to
the columns its KPI summary reads. -/
structure OverviewKpiRow where
  forecastAccuracy : ℚ
  yieldKg : ℚ
  absDisparityKg : ℚ
deriving DecidableEq

/-- Weighted accuracy of the Accuracy Overview KPI summary, src/app.py lines
259-262: (Forecast Accuracy * Yield Kg).sum() / Yield Kg.sum(), computed with
no guard on the denominator, so a zero total yield produces NaN or a signed
infinity. -/
def overviewWeightedAccuracy (weekly : List OverviewKpiRow) : PVal :=
  fdiv ((weekly.map (fun r => r.forecastAccuracy * r.yieldKg)).sum)
       ((weekly.map (fun r => r.yieldKg)).sum)

/-- The Accuracy Overview KPI block, src/app.py lines 257-282: the metric
card is rendered unconditionally (there is no branch around st.metric), so
the displayed value is always some (overviewWeightedAccuracy weekly); none
would mean the block is suppressed, which never happens in this tab. -/
def overviewKpiShown (weekly : List OverviewKpiRow) : Option PVal :=
  some (overviewWeightedAccuracy weekly)

/-- Claim C3 counterexample: in the Accuracy Overview view, a selected table
whose actual-volume weights sum to zero does NOT get its weighted-accuracy
metric suppressed: the metric block is shown, and the value it shows is the
spurious figure NaN, contradicting the claim that every view displaying the
weighted-accuracy summary signals zero total weight as no data. -/
theorem overview_weighted_accuracy_nan_shown :
    overviewKpiShown [⟨0, 0, 5⟩] = some PVal.nan ∧
    (overviewWeightedAccuracy [⟨0, 0, 5⟩]).isna = true := by
  constructor <;>
    simp [overviewKpiShown, overviewWeightedAccuracy, fdiv, PVal.isna]

/-- Claim C3 amended: the Weekly Analysis view signals a zero total
actual-volume weight as no data (compute_kpis returns (None, None, None) and
its caller skips the metric block), but the Accuracy Overview view computes
the weighted accuracy unguarded, producing a non-number (NaN or a signed
infinity) that is rendered rather than suppressed. -/
theorem weighted_accuracy_zero_weight_policy
    (df : List KpiRow) (weekly : List OverviewKpiRow)
    (hdf : (df.map (fun r => r.actualKg)).sum = 0)
    (hw : (weekly.map (fun r => r.yieldKg)).sum = 0) :
    compute_kpis df = (none, none, none) ∧
    (overviewWeightedAccuracy weekly).isNum = false ∧
    overviewKpiShown weekly = some (overviewWeightedAccuracy weekly) := by
  refine ⟨by simp [compute_kpis, hdf], ?_, rfl⟩
  unfold overviewWeightedAccuracy fdiv
  rw [hw]
  by_cases h : (weekly.map (fun r => r.forecastAccuracy * r.yieldKg)).sum = 0
  · simp [h, PVal.isNum]
  · by_cases h2 : 0 < (weekly.map (fun r => r.forecastAccuracy * r.yieldKg)).sum <;>
      simp [h, h2, PVal.isNum]

theorem weighted_accuracy_zero_weight_policy_witness :
    compute_kpis [⟨90, 0, 5⟩] = (none, none, none) ∧
    (overviewWeightedAccuracy [⟨90, 0, 5⟩]).isNum = false ∧
    overviewKpiShown [⟨90, 0, 5⟩] = some (overviewWeightedAccuracy [⟨90, 0, 5⟩]) :=
  weighted_accuracy_zero_weight_policy [⟨90, 0, 5⟩] [⟨90, 0, 5⟩]
    (by simp) (by simp)

/-- Claim C10: compute_kpis returns the no-data marker (None, None, None) for
all three summary metrics whenever the table is empty or the Actual Kg
weights sum to zero, even though the mean and cumulative absolute
disparities are well defined on a non-empty zero-weight table. -/
theorem compute_kpis_no_data_marker (df : List KpiRow)
    (h : df = [] ∨ (df.map (fun r => r.actualKg)).sum = 0) :
    compute_kpis df = (none, none, none) := by
  simp [compute_kpis, h]

theorem compute_kpis_no_data_marker_witness :
    compute_kpis [⟨50, 0, 7⟩, ⟨80, 0, 3⟩] = (none, none, none) :=
  compute_kpis_no_data_marker [⟨50, 0, 7⟩, ⟨80, 0, 3⟩] (Or.inr (by simp))

/-! Wages Analysis: variance from the EA benchmark rate. -/

/-- Multiplication of a pandas float value by the positive constant 100:
NaN and the signed infinities are fixed, a number is scaled. -/
def PVal.mul100 : PVal → PVal
  | .num q => .num (q * 100)
  | v => v

/-- One aggregated wages row, restricted to the measure columns the variance
computation reads (src/app.py lines 710-724: the means named Picker Cost/Hr,
Total Cost/Hr and EA Rate). -/
structure WagesAggRow where
  pickerCostHr : ℚ
  totalCostHr : ℚ
  eaRate : ℚ
deriving DecidableEq

/-- Picker Variance from EA, src/app.py lines 727-729. -/
def pickerVarianceFromEA (r : WagesAggRow) : ℚ :=
  r.pickerCostHr - r.eaRate

/-- Total Variance from EA, src/app.py lines 730-732. -/
def totalVarianceFromEA (r : WagesAggRow) : ℚ :=
  r.totalCostHr - r.eaRate

/-- Picker % Variance, src/app.py lines 735-737: (variance / EA Rate) * 100
as plain float arithmetic, so a zero EA Rate yields NaN or a signed
infinity. -/
def pickerPctVariance (r : WagesAggRow) : PVal :=
  (fdiv (pickerVarianceFromEA r) r.eaRate).mul100

/-- Total % Variance, src/app.py lines 738-740. -/
def totalPctVariance (r : WagesAggRow) : PVal :=
  (fdiv (totalVarianceFromEA r) r.eaRate).mul100

/-- The only guard in front of the variance heatmap, src/app.py line 868:
the chart is replaced by a warning exactly when the aggregated table is
empty or every Picker % Variance value is NaN.  A signed infinity is not NaN
and does not trigger the guard. -/
def varianceHeatmapSuppressed (rows : List WagesAggRow) : Bool :=
  rows.isEmpty || rows.all (fun r => (pickerPctVariance r).isna)

/-- Claim C5 counterexample: an aggregated wages row with EA Rate 0 and
Picker Cost/Hr 5 gets Picker % Variance +Infinity, which is not an explicit
no-value marker: the heatmap guard does not suppress it, so an Infinity
reaches the rendering code, contradicting the claim. -/
theorem pct_variance_zero_ea_infinity_rendered :
    pickerPctVariance ⟨5, 6, 0⟩ = PVal.posInf ∧
    varianceHeatmapSuppressed [⟨5, 6, 0⟩] = false := by
  constructor <;>
    simp [pickerPctVariance, pickerVarianceFromEA, fdiv, PVal.mul100,
      varianceHeatmapSuppressed, PVal.isna]

/-- Claim C5 amended: for an aggregated wages row with a zero EA Rate the
percentage variance is never a number — it is NaN when the cost equals the
benchmark and a signed infinity otherwise — and the only display
special-case is the heatmap empty-or-all-NaN guard, which does not suppress
a row whose cost differs from the zero benchmark, so such Infinity values
flow on to rendering; nothing clips or zeroes them. -/
theorem pct_variance_zero_ea_not_number (r : WagesAggRow)
    (h : r.eaRate = 0) :
    (pickerPctVariance r).isNum = false ∧
    (totalPctVariance r).isNum = false ∧
    (r.pickerCostHr ≠ 0 → varianceHeatmapSuppressed [r] = false) := by
  have hnum : ∀ v : ℚ, ((fdiv v 0).mul100).isNum = false := by
    intro v
    by_cases hv : v = 0
    · simp [fdiv, hv, PVal.mul100, PVal.isNum]
    · by_cases hv2 : 0 < v <;> simp [fdiv, hv, hv2, PVal.mul100, PVal.isNum]
  refine ⟨?_, ?_, ?_⟩
  · simpa [pickerPctVariance, h] using hnum (pickerVarianceFromEA r)
  · simpa [totalPctVariance, h] using hnum (totalVarianceFromEA r)
  · intro hc
    have hvar : pickerVarianceFromEA r ≠ 0 := by
      simp [pickerVarianceFromEA, h, hc]
    by_cases hv2 : 0 < pickerVarianceFromEA r <;>
      simp [varianceHeatmapSuppressed, pickerPctVariance, fdiv, h, hvar, hv2,
        PVal.mul100, PVal.isna]

theorem pct_variance_zero_ea_not_number_witness :
    (pickerPctVariance ⟨7, 3, 0⟩).isNum = false ∧
    (totalPctVariance ⟨7, 3, 0⟩).isNum = false ∧
    varianceHeatmapSuppressed [⟨7, 3, 0⟩] = false :=
  ⟨(pct_variance_zero_ea_not_number ⟨7, 3, 0⟩ rfl).1,
   (pct_variance_zero_ea_not_number ⟨7, 3, 0⟩ rfl).2.1,
   (pct_variance_zero_ea_not_number ⟨7, 3, 0⟩ rfl).2.2 (by norm_num)⟩

/-! Weekly aggregation of the actuals extract.  A missing dimension value is
embedded as Option.none; pandas groupby (default dropna=True) excludes a row
whose grouping key contains a missing value from every group. -/

/-- One row of the actuals extract, with the grouping columns of the
groupby at src/app.py lines 91-103 (each possibly missing) and the summed
measure Yield Kg. -/
structure ActualsRecord where
  plant : Option String
  productCategory : Option String
  productVariety : Option String
  location : Option String
  fiscalYear : Option ℤ
  fiscalWeekNo : Option ℤ
  yieldKg : ℚ
deriving DecidableEq

/-- The composite dimension key of the weekly aggregation. -/
abbrev DimKey := String × String × String × String × ℤ × ℤ

/-- The grouping key of a record, or none when any dimension value is
missing (pandas then excludes the row from the groupby). -/
def rowKey (r : ActualsRecord) : Option DimKey :=
  match r.plant, r.productCategory, r.productVariety, r.location,
      r.fiscalYear, r.fiscalWeekNo with
  | some p, some c, some v, some l, some y, some w => some (p, c, v, l, y, w)
  | _, _, _, _, _, _ => none

/-- The distinct group keys formed by the groupby: the keys of the records
that have a complete key, deduplicated. -/
def groupKeys (rs : List ActualsRecord) : List DimKey :=
  (rs.filterMap rowKey).dedup

/-- The weekly aggregation, src/app.py lines 91-103: groupby on the six
dimension columns with agg Yield Kg: sum.  One output row per group key,
carrying the sum of Yield Kg over the records of that group. -/
def aggregateActualsWeekly (rs : List ActualsRecord) : List (DimKey × ℚ) :=
  (groupKeys rs).map (fun k =>
    (k, ((rs.filter (fun r => decide (rowKey r = some k))).map
          (fun r => r.yieldKg)).sum))

/-- Membership of the key of a record in a list of keys; false for a record
with a missing dimension value. -/
def keyMem (ks : List DimKey) (r : ActualsRecord) : Bool :=
  match rowKey r with
  | some k => decide (k ∈ ks)
  | none => false

lemma keyMem_cons (k : DimKey) (ks : List DimKey) (r : ActualsRecord) :
    keyMem (k :: ks) r = (decide (rowKey r = some k) || keyMem ks r) := by
  unfold keyMem
  cases hr : rowKey r with
  | none => simp [hr]
  | some k0 =>
    simp only [hr, List.mem_cons]
    by_cases h : k0 = k <;> simp [h]

lemma sum_filter_or (p q : ActualsRecord → Bool) (l : List ActualsRecord)
    (hpq : ∀ a, ¬(p a = true ∧ q a = true)) :
    ((l.filter (fun a => p a || q a)).map (fun r => r.yieldKg)).sum
      = ((l.filter p).map (fun r => r.yieldKg)).sum
        + ((l.filter q).map (fun r => r.yieldKg)).sum := by
  induction l with
  | nil => simp
  | cons a l ih =>
    cases hp : p a <;> cases hq : q a
    · simp only [List.filter_cons, hp, hq, Bool.or_self, Bool.false_eq_true,
        if_false, ih]
    · simp only [List.filter_cons, hp, hq, Bool.false_or, if_true,
        Bool.false_eq_true, if_false, List.map_cons, List.sum_cons, ih]
      ring
    · simp only [List.filter_cons, hp, hq, Bool.true_or, if_true,
        Bool.false_eq_true, if_false, List.map_cons, List.sum_cons, ih]
      ring
    · exact absurd ⟨hp, hq⟩ (hpq a)

lemma sum_fibers (ks : List DimKey) (hks : ks.Nodup) (rs : List ActualsRecord) :
    ((ks.map (fun k =>
        ((rs.filter (fun r => decide (rowKey r = some k))).map
          (fun r => r.yieldKg)).sum)).sum)
      = ((rs.filter (keyMem ks)).map (fun r => r.yieldKg)).sum := by
  induction ks with
  | nil =>
    have h0 : rs.filter (keyMem []) = [] := by
      apply List.filter_eq_nil_iff.mpr
      intro r _
      unfold keyMem
      cases rowKey r <;> simp
    simp [h0]
  | cons k ks ih =>
    obtain ⟨hk, hks2⟩ := List.nodup_cons.mp hks
    rw [List.map_cons, List.sum_cons, ih hks2]
    have hdis : ∀ a : ActualsRecord,
        ¬((fun r => decide (rowKey r = some k)) a = true ∧ keyMem ks a = true) := by
      rintro a ⟨h1, h2⟩
      rw [decide_eq_true_eq] at h1
      unfold keyMem at h2
      rw [h1, decide_eq_true_eq] at h2
      exact hk h2
    rw [← sum_filter_or (fun r => decide (rowKey r = some k)) (keyMem ks) rs hdis]
    congr 1
    refine congrArg _ (List.filter_congr ?_)
    intro r _
    exact (keyMem_cons k ks r).symm

/-- Claim C4 counterexample: a record whose Product Category dimension value
is missing is dropped by the weekly aggregation: the aggregated result is
empty, with no sentinel unknown group, contradicting the claim that such a
record contributes to the output. -/
theorem aggregate_drops_missing_dimension_record :
    aggregateActualsWeekly
      [⟨some "PlantX", none, some "VarA", some "LocA", some 2024, some 2, 10⟩]
      = [] := by
  simp [aggregateActualsWeekly, groupKeys, rowKey]

/-- Claim C4 amended: the weekly aggregation silently drops every record
that has a missing dimension value (the pandas groupby default), rather than
grouping it under an unknown sentinel: aggregating a record list gives
exactly the aggregation of its records with complete keys. -/
theorem aggregate_ignores_missing_key_records (rs : List ActualsRecord) :
    aggregateActualsWeekly rs
      = aggregateActualsWeekly (rs.filter (fun r => (rowKey r).isSome)) := by
  have h1 : groupKeys (rs.filter (fun r => (rowKey r).isSome)) = groupKeys rs := by
    unfold groupKeys
    congr 1
    induction rs with
    | nil => rfl
    | cons r rs ih =>
      cases hr : rowKey r <;>
        simp [List.filter_cons, List.filterMap_cons, hr, ih]
  have h2 : ∀ k : DimKey,
      (rs.filter (fun r => (rowKey r).isSome)).filter
          (fun r => decide (rowKey r = some k))
        = rs.filter (fun r => decide (rowKey r = some k)) := by
    intro k
    rw [List.filter_filter]
    apply List.filter_congr
    intro r _
    cases hr : rowKey r <;> simp [hr]
  unfold aggregateActualsWeekly
  rw [h1]
  apply List.map_congr_left
  intro k _
  rw [h2 k]

/-- Claim C6 counterexample: a record with a missing Plant dimension value
is dropped by the aggregation, so the sum of Yield Kg over the aggregated
rows (zero) differs from the sum over the input records (five),
contradicting the claim that aggregation preserves measure mass for every
input record set. -/
theorem aggregate_sum_not_preserved_missing_key :
    ((aggregateActualsWeekly
        [⟨none, some "Fruit", some "VarB", some "LocB", some 2024, some 1, 5⟩]).map
      Prod.snd).sum
    ≠ ([(⟨none, some "Fruit", some "VarB", some "LocB", some 2024, some 1, 5⟩ :
          ActualsRecord)].map (fun r => r.yieldKg)).sum := by
  simp [aggregateActualsWeekly, groupKeys, rowKey]

/-- Claim C6 amended: for every input record set in which each record has
all its dimension key values present, the sum of the summed measure over
the aggregated rows equals the sum of the measure over the input records;
records with a missing dimension value are excluded from the aggregation
and do not contribute. -/
theorem aggregate_sum_preserved_full_keys (rs : List ActualsRecord)
    (h : ∀ r ∈ rs, (rowKey r).isSome) :
    ((aggregateActualsWeekly rs).map Prod.snd).sum
      = (rs.map (fun r => r.yieldKg)).sum := by
  unfold aggregateActualsWeekly
  rw [List.map_map]
  have hcomp :
      (Prod.snd ∘ fun k : DimKey =>
        (k, ((rs.filter (fun r => decide (rowKey r = some k))).map
              (fun r => r.yieldKg)).sum))
      = fun k : DimKey =>
          ((rs.filter (fun r => decide (rowKey r = some k))).map
            (fun r => r.yieldKg)).sum := rfl
  rw [hcomp, sum_fibers (groupKeys rs) (List.nodup_dedup _) rs]
  have hfull : rs.filter (keyMem (groupKeys rs)) = rs := by
    apply List.filter_eq_self.mpr
    intro r hr
    obtain ⟨k, hk⟩ := Option.isSome_iff_exists.mp (h r hr)
    unfold keyMem
    rw [hk, decide_eq_true_eq]
    unfold groupKeys
    rw [List.mem_dedup]
    exact List.mem_filterMap.mpr ⟨r, hr, hk⟩
  rw [hfull]

theorem aggregate_sum_preserved_full_keys_witness :
    ((aggregateActualsWeekly
        [⟨some "PlantX", some "Fruit", some "VarA", some "LocA", some 2024, some 1, 600⟩,
         ⟨some "PlantX", some "Fruit", some "VarA", some "LocA", some 2024, some 1, 400⟩]).map
      Prod.snd).sum
    = ([(⟨some "PlantX", some "Fruit", some "VarA", some "LocA", some 2024, some 1, 600⟩ :
            ActualsRecord),
        ⟨some "PlantX", some "Fruit", some "VarA", some "LocA", some 2024, some 1, 400⟩].map
        (fun r => r.yieldKg)).sum :=
  aggregate_sum_preserved_full_keys _ (by intro r hr; fin_cases hr <;> simp [rowKey])

/-! The actual-vs-forecast inner join of the Accuracy Overview tab, with the
astype(int) casts around it.  Column values that the source stores as int,
float or text are embedded as CVal; the merge compares keys by exact
equality of these values. -/

/-- A cell value of the year/week columns: integer, floating point, or
text, as the raw extracts may store them. -/
inductive CVal where
  | cInt (z : ℤ)
  | cFloat (q : ℚ)
  | cStr (s : String)
deriving DecidableEq

def CVal.isInt : CVal → Bool
  | .cInt _ => true
  | _ => false

/-- Truncation of a rational toward zero, the rounding astype(int) applies
to a floating-point value. -/
def ratTrunc (q : ℚ) : ℤ :=
  if 0 ≤ q then ⌊q⌋ else -⌊-q⌋

/-- astype(int) on one cell: an integer stays itself, a float is truncated,
text is parsed; none embeds the conversion error raised on unparsable
text. -/
def astypeInt : CVal → Option CVal
  | .cInt z => some (.cInt z)
  | .cFloat q => some (.cInt (ratTrunc q))
  | .cStr s => (s.toInt?).map CVal.cInt

/-- One row of an aggregated weekly table (actual side or forecast side)
entering the merge at src/app.py lines 119-125: the six key columns and the
summed measure (Yield Kg on the actual side, Forecast Kg on the forecast
side). -/
structure WeeklyAggRow where
  plant : String
  productCategory : String
  productVariety : String
  location : String
  fiscalYear : CVal
  fiscalWeek : CVal
  measure : ℚ
deriving DecidableEq

/-- The composite join key of the merge: the six on-columns. -/
abbrev MergeKey := String × String × String × String × CVal × CVal

def mergeKey (r : WeeklyAggRow) : MergeKey :=
  (r.plant, r.productCategory, r.productVariety, r.location,
   r.fiscalYear, r.fiscalWeek)

/-- astype(int) over the Fiscal Week column of a whole table, src/app.py
lines 116-117; fails (none) if any cell fails to convert. -/
def castFiscalWeekInt : List WeeklyAggRow → Option (List WeeklyAggRow)
  | [] => some []
  | r :: rs => do
    let v ← astypeInt r.fiscalWeek
    let rest ← castFiscalWeekInt rs
    some ({ r with fiscalWeek := v } :: rest)

/-- pd.merge(actuals_weekly, forecast_weekly, on=the six key columns,
how=inner), src/app.py lines 119-125, for the case in which each on-column
has one shared dtype on both sides: keys then compare by exact value
equality, each left row is paired with every right row of equal composite
key, and keys present on one side only are dropped.  When the two sides of
a numeric key column have different dtypes pandas first coerces them to a
shared numeric dtype; that cross-dtype matching is modelled by
mergedInnerCoerce below, which coincides with this function on tables whose
year and week cells are all integers (mergedInnerCoerce_eq_mergedInner). -/
def mergedInner (acts fors : List WeeklyAggRow) : List (WeeklyAggRow × ℚ) :=
  acts.flatMap (fun a =>
    (fors.filter (fun f => decide (mergeKey f = mergeKey a))).map
      (fun f => (a, f.measure)))

/-- Key-cell equality as pd.merge applies it: int and float cells are
coerced to a shared numeric dtype and compare by numeric value; text
compares exactly.  The column-level error pandas raises when one side of a
key column is text and the other numeric is outside this cell-level model
(such cells simply never compare equal here). -/
def cvalKeyEq : CVal → CVal → Bool
  | .cInt a, .cInt b => decide (a = b)
  | .cInt a, .cFloat b => decide ((a : ℚ) = b)
  | .cFloat a, .cInt b => decide (a = (b : ℚ))
  | .cFloat a, .cFloat b => decide (a = b)
  | .cStr a, .cStr b => decide (a = b)
  | _, _ => false

/-- Composite-key matching of the merge with pandas dtype coercion: the
four text components compare exactly, the year and week components by
cvalKeyEq. -/
def mergeKeyMatch : MergeKey → MergeKey → Bool
  | (p1, c1, v1, l1, y1, w1), (p2, c2, v2, l2, y2, w2) =>
    decide (p1 = p2) && decide (c1 = c2) && decide (v1 = v2) &&
      decide (l1 = l2) && cvalKeyEq y1 y2 && cvalKeyEq w1 w2

/-- pd.merge(actuals_weekly, forecast_weekly, on=the six key columns,
how=inner), src/app.py lines 119-125, including the numeric dtype coercion
pandas applies across int and float key columns: numerically equal year or
week values match even when one side stores them as floats. -/
def mergedInnerCoerce (acts fors : List WeeklyAggRow) : List (WeeklyAggRow × ℚ) :=
  acts.flatMap (fun a =>
    (fors.filter (fun f => mergeKeyMatch (mergeKey f) (mergeKey a))).map
      (fun f => (a, f.measure)))

/-- astype(int) over the Fiscal Year column of the merged table, src/app.py
line 127 — performed only after the merge. -/
def castMergedYearInt : List (WeeklyAggRow × ℚ) → Option (List (WeeklyAggRow × ℚ))
  | [] => some []
  | m :: ms => do
    let v ← astypeInt m.1.fiscalYear
    let rest ← castMergedYearInt ms
    some (({ m.1 with fiscalYear := v }, m.2) :: rest)

/-- The merge pipeline of the Accuracy Overview tab in source order,
src/app.py lines 116-127: cast Fiscal Week to int on both sides, inner
merge (with the numeric dtype coercion pandas applies across key columns),
then cast Fiscal Year to int on the merged result. -/
def overviewMergePipeline (acts fors : List WeeklyAggRow) :
    Option (List (WeeklyAggRow × ℚ)) := do
  let a ← castFiscalWeekInt acts
  let f ← castFiscalWeekInt fors
  castMergedYearInt (mergedInnerCoerce a f)

lemma countP_eq_ite_of_nodup {K : Type} [DecidableEq K] (l : List K)
    (hl : l.Nodup) (k : K) :
    l.countP (fun x => decide (x = k)) = if k ∈ l then 1 else 0 := by
  induction l with
  | nil => simp
  | cons a l ih =>
    obtain ⟨ha, hl2⟩ := List.nodup_cons.mp hl
    rw [List.countP_cons]
    by_cases hak : a = k
    · subst hak
      have h0 : l.countP (fun x => decide (x = a)) = 0 :=
        List.countP_eq_zero.mpr (fun x hx hc => ha ((decide_eq_true_eq.mp hc) ▸ hx))
      simp [h0]
    · have hka : ¬(k = a) := fun h => hak h.symm
      rw [ih hl2]
      simp [List.mem_cons, hak, hka]

lemma sum_ite_one_length {α : Type} (l : List α) (P : α → Prop) [DecidablePred P] :
    (l.map (fun a => if P a then 1 else 0)).sum = (l.filter (fun a => decide (P a))).length := by
  induction l with
  | nil => rfl
  | cons a l ih =>
    by_cases hp : P a <;> simp [List.filter_cons, hp, ih, Nat.add_comm]

lemma filter_key_length (fors : List WeeklyAggRow)
    (hF : (fors.map mergeKey).Nodup) (k : MergeKey) :
    (fors.filter (fun f => decide (mergeKey f = k))).length
      = if k ∈ fors.map mergeKey then 1 else 0 := by
  rw [← List.countP_eq_length_filter]
  have h2 : (fun f : WeeklyAggRow => decide (mergeKey f = k))
      = ((fun x : MergeKey => decide (x = k)) ∘ mergeKey) := rfl
  rw [h2, ← List.countP_map, countP_eq_ite_of_nodup _ hF]
  simp

lemma length_mergedInner (acts fors : List WeeklyAggRow)
    (hF : (fors.map mergeKey).Nodup) :
    (mergedInner acts fors).length
      = (acts.filter (fun a => decide (mergeKey a ∈ fors.map mergeKey))).length := by
  unfold mergedInner
  rw [List.length_flatMap]
  have hfun : (List.length ∘ fun a : WeeklyAggRow =>
        (fors.filter (fun f => decide (mergeKey f = mergeKey a))).map
          (fun f => (a, f.measure)))
      = fun a : WeeklyAggRow => if mergeKey a ∈ fors.map mergeKey then 1 else 0 := by
    funext a
    simp only [Function.comp_apply, List.length_map]
    exact filter_key_length fors hF (mergeKey a)
  rw [hfun, sum_ite_one_length]

lemma mergedInner_length_inter (acts fors : List WeeklyAggRow)
    (hA : (acts.map mergeKey).Nodup) (hF : (fors.map mergeKey).Nodup) :
    (mergedInner acts fors).length
      = ((acts.map mergeKey).toFinset ∩ (fors.map mergeKey).toFinset).card := by
  rw [length_mergedInner acts fors hF]
  have hlen : (acts.filter (fun a => decide (mergeKey a ∈ fors.map mergeKey))).length
      = ((acts.map mergeKey).filter (fun k => decide (k ∈ fors.map mergeKey))).length := by
    rw [List.filter_map, List.length_map]
    rfl
  rw [hlen]
  have hnodup : ((acts.map mergeKey).filter
      (fun k => decide (k ∈ fors.map mergeKey))).Nodup := hA.filter _
  rw [← List.toFinset_card_of_nodup hnodup, List.toFinset_filter]
  congr 1
  ext x
  simp [Finset.mem_filter, Finset.mem_inter, List.mem_toFinset]

/-- Claim C7 counterexample: one actual row and two forecast rows, all keys
one-per-row, where the actual key matches the first forecast key: the join
has exactly min(1, 2) = 1 row, yet the key sets of the two sides are not
equal (the second forecast key appears on the forecast side only),
contradicting the claim that the bound is attained with equality only when
the key sets are exactly equal. -/
theorem join_cardinality_equality_without_equal_keys :
    (mergedInner
        [⟨"P1", "Cat", "Var", "Loc", CVal.cInt 2024, CVal.cInt 1, 100⟩]
        [⟨"P1", "Cat", "Var", "Loc", CVal.cInt 2024, CVal.cInt 1, 110⟩,
         ⟨"P2", "Cat", "Var", "Loc", CVal.cInt 2024, CVal.cInt 1, 120⟩]).length
      = min
          ([(⟨"P1", "Cat", "Var", "Loc", CVal.cInt 2024, CVal.cInt 1, 100⟩ :
              WeeklyAggRow)]).length
          ([⟨"P1", "Cat", "Var", "Loc", CVal.cInt 2024, CVal.cInt 1, 110⟩,
            (⟨"P2", "Cat", "Var", "Loc", CVal.cInt 2024, CVal.cInt 1, 120⟩ :
              WeeklyAggRow)]).length ∧
    mergeKey ⟨"P2", "Cat", "Var", "Loc", CVal.cInt 2024, CVal.cInt 1, 120⟩
      ∈ ([⟨"P1", "Cat", "Var", "Loc", CVal.cInt 2024, CVal.cInt 1, 110⟩,
          (⟨"P2", "Cat", "Var", "Loc", CVal.cInt 2024, CVal.cInt 1, 120⟩ :
            WeeklyAggRow)]).map mergeKey ∧
    mergeKey ⟨"P2", "Cat", "Var", "Loc", CVal.cInt 2024, CVal.cInt 1, 120⟩
      ∉ ([(⟨"P1", "Cat", "Var", "Loc", CVal.cInt 2024, CVal.cInt 1, 100⟩ :
            WeeklyAggRow)]).map mergeKey := by
  refine ⟨?_, ?_, ?_⟩ <;> decide

/-- Claim C7 amended: for actual-side and forecast-side aggregated row sets
with one row per key, the inner join yields at most min of the two row
counts, and the bound is attained with equality if and only if one key set
is contained in the other (in particular, but not only, when the key sets
are exactly equal). -/
theorem join_cardinality_bound (acts fors : List WeeklyAggRow)
    (hA : (acts.map mergeKey).Nodup) (hF : (fors.map mergeKey).Nodup) :
    (mergedInner acts fors).length ≤ min acts.length fors.length ∧
    ((mergedInner acts fors).length = min acts.length fors.length ↔
      acts.map mergeKey ⊆ fors.map mergeKey ∨
        fors.map mergeKey ⊆ acts.map mergeKey) := by
  have hlen := mergedInner_length_inter acts fors hA hF
  have hca : acts.length = (acts.map mergeKey).toFinset.card := by
    rw [List.toFinset_card_of_nodup hA, List.length_map]
  have hcf : fors.length = (fors.map mergeKey).toFinset.card := by
    rw [List.toFinset_card_of_nodup hF, List.length_map]
  have hsubA : acts.map mergeKey ⊆ fors.map mergeKey ↔
      (acts.map mergeKey).toFinset ⊆ (fors.map mergeKey).toFinset := by
    constructor
    · intro h x hx
      exact List.mem_toFinset.mpr (h (List.mem_toFinset.mp hx))
    · intro h x hx
      exact List.mem_toFinset.mp (h (List.mem_toFinset.mpr hx))
  have hsubF : fors.map mergeKey ⊆ acts.map mergeKey ↔
      (fors.map mergeKey).toFinset ⊆ (acts.map mergeKey).toFinset := by
    constructor
    · intro h x hx
      exact List.mem_toFinset.mpr (h (List.mem_toFinset.mp hx))
    · intro h x hx
      exact List.mem_toFinset.mp (h (List.mem_toFinset.mpr hx))
  refine ⟨?_, ?_⟩
  · rw [hlen, hca, hcf]
    exact le_min (Finset.card_le_card Finset.inter_subset_left)
      (Finset.card_le_card Finset.inter_subset_right)
  · rw [hlen, hca, hcf, hsubA, hsubF]
    constructor
    · intro h
      rcases le_total (acts.map mergeKey).toFinset.card
          (fors.map mergeKey).toFinset.card with hle | hle
      · left
        rw [min_eq_left hle] at h
        exact Finset.inter_eq_left.mp
          (Finset.eq_of_subset_of_card_le Finset.inter_subset_left (le_of_eq h.symm))
      · right
        rw [min_eq_right hle] at h
        exact Finset.inter_eq_right.mp
          (Finset.eq_of_subset_of_card_le Finset.inter_subset_right (le_of_eq h.symm))
    · rintro (h | h)
      · rw [Finset.inter_eq_left.mpr h, min_eq_left (Finset.card_le_card h)]
      · rw [Finset.inter_eq_right.mpr h, min_eq_right (Finset.card_le_card h)]

theorem join_cardinality_bound_witness :
    (mergedInner
        [⟨"P1", "Cat", "Var", "Loc", CVal.cInt 2024, CVal.cInt 1, 1000⟩]
        [⟨"P1", "Cat", "Var", "Loc", CVal.cInt 2024, CVal.cInt 1, 1100⟩]).length
      ≤ min 1 1 ∧
    ((mergedInner
        [⟨"P1", "Cat", "Var", "Loc", CVal.cInt 2024, CVal.cInt 1, 1000⟩]
        [⟨"P1", "Cat", "Var", "Loc", CVal.cInt 2024, CVal.cInt 1, 1100⟩]).length
        = min 1 1 ↔
      ([(⟨"P1", "Cat", "Var", "Loc", CVal.cInt 2024, CVal.cInt 1, 1000⟩ :
          WeeklyAggRow)]).map mergeKey
        ⊆ ([(⟨"P1", "Cat", "Var", "Loc", CVal.cInt 2024, CVal.cInt 1, 1100⟩ :
          WeeklyAggRow)]).map mergeKey ∨
      ([(⟨"P1", "Cat", "Var", "Loc", CVal.cInt 2024, CVal.cInt 1, 1100⟩ :
          WeeklyAggRow)]).map mergeKey
        ⊆ ([(⟨"P1", "Cat", "Var", "Loc", CVal.cInt 2024, CVal.cInt 1, 1000⟩ :
          WeeklyAggRow)]).map mergeKey) :=
  join_cardinality_bound
    [⟨"P1", "Cat", "Var", "Loc", CVal.cInt 2024, CVal.cInt 1, 1000⟩]
    [⟨"P1", "Cat", "Var", "Loc", CVal.cInt 2024, CVal.cInt 1, 1100⟩]
    (by decide) (by decide)

lemma astypeInt_isInt {v w : CVal} (h : astypeInt v = some w) : w.isInt = true := by
  cases v with
  | cInt z =>
    simp only [astypeInt, Option.some.injEq] at h
    subst h; rfl
  | cFloat q =>
    simp only [astypeInt, Option.some.injEq] at h
    subst h; rfl
  | cStr s =>
    simp only [astypeInt] at h
    cases hs : s.toInt? with
    | none => rw [hs] at h; simp at h
    | some z =>
      rw [hs] at h
      simp only [Option.map_some', Option.some.injEq] at h
      subst h; rfl

lemma castFiscalWeekInt_spec (rs : List WeeklyAggRow) :
    ∀ out, castFiscalWeekInt rs = some out →
      (∀ r ∈ out, r.fiscalWeek.isInt = true) ∧
      out.map (fun r => r.fiscalYear) = rs.map (fun r => r.fiscalYear) := by
  induction rs with
  | nil =>
    intro out h
    simp only [castFiscalWeekInt, Option.some.injEq] at h
    subst h
    exact ⟨by simp, by simp⟩
  | cons r rs ih =>
    intro out h
    simp only [castFiscalWeekInt] at h
    cases hv : astypeInt r.fiscalWeek with
    | none => rw [hv] at h; simp at h
    | some v =>
      rw [hv] at h
      cases hrest : castFiscalWeekInt rs with
      | none => rw [hrest] at h; simp at h
      | some rest =>
        rw [hrest] at h
        simp only [Option.bind_eq_bind, Option.some_bind, Option.some.injEq] at h
        subst h
        obtain ⟨ih1, ih2⟩ := ih rest hrest
        refine ⟨?_, ?_⟩
        · intro x hx
          rcases List.mem_cons.mp hx with rfl | hx
          · exact astypeInt_isInt hv
          · exact ih1 x hx
        · simpa using ih2

lemma castMergedYearInt_spec (ms : List (WeeklyAggRow × ℚ)) :
    ∀ out, castMergedYearInt ms = some out →
      (∀ p ∈ out, p.1.fiscalYear.isInt = true) ∧
      out.map (fun p => p.1.fiscalWeek) = ms.map (fun p => p.1.fiscalWeek) := by
  induction ms with
  | nil =>
    intro out h
    simp only [castMergedYearInt, Option.some.injEq] at h
    subst h
    exact ⟨by simp, by simp⟩
  | cons m ms ih =>
    intro out h
    simp only [castMergedYearInt] at h
    cases hv : astypeInt m.1.fiscalYear with
    | none => rw [hv] at h; simp at h
    | some v =>
      rw [hv] at h
      cases hrest : castMergedYearInt ms with
      | none => rw [hrest] at h; simp at h
      | some rest =>
        rw [hrest] at h
        simp only [Option.bind_eq_bind, Option.some_bind, Option.some.injEq] at h
        subst h
        obtain ⟨ih1, ih2⟩ := ih rest hrest
        refine ⟨?_, ?_⟩
        · intro x hx
          rcases List.mem_cons.mp hx with rfl | hx
          · exact astypeInt_isInt hv
          · exact ih1 x hx
        · simpa using ih2

lemma mergedInnerCoerce_fst_mem (acts fors : List WeeklyAggRow) :
    ∀ p ∈ mergedInnerCoerce acts fors, p.1 ∈ acts := by
  intro p hp
  unfold mergedInnerCoerce at hp
  rw [List.mem_flatMap] at hp
  obtain ⟨a, ha, hp⟩ := hp
  rw [List.mem_map] at hp
  obtain ⟨f, _, rfl⟩ := hp
  exact ha

lemma CVal.isInt_exists {v : CVal} (h : v.isInt = true) : ∃ z, v = CVal.cInt z := by
  cases v with
  | cInt z => exact ⟨z, rfl⟩
  | cFloat q => simp [CVal.isInt] at h
  | cStr s => simp [CVal.isInt] at h

lemma mergeKeyMatch_of_int {f a : WeeklyAggRow}
    (hfy : f.fiscalYear.isInt = true) (hfw : f.fiscalWeek.isInt = true)
    (hay : a.fiscalYear.isInt = true) (haw : a.fiscalWeek.isInt = true) :
    mergeKeyMatch (mergeKey f) (mergeKey a) = decide (mergeKey f = mergeKey a) := by
  obtain ⟨zf, hzf⟩ := CVal.isInt_exists hfy
  obtain ⟨wf, hwf⟩ := CVal.isInt_exists hfw
  obtain ⟨za, hza⟩ := CVal.isInt_exists hay
  obtain ⟨wa, hwa⟩ := CVal.isInt_exists haw
  unfold mergeKey mergeKeyMatch
  rw [hzf, hwf, hza, hwa]
  by_cases h1 : f.plant = a.plant <;>
    by_cases h2 : f.productCategory = a.productCategory <;>
    by_cases h3 : f.productVariety = a.productVariety <;>
    by_cases h4 : f.location = a.location <;>
    by_cases h5 : zf = za <;>
    by_cases h6 : wf = wa <;>
    simp [h1, h2, h3, h4, h5, h6, cvalKeyEq, Prod.ext_iff]

/-- On tables whose year and week cells are already integers — as after
full normalization — the coercing merge coincides with the exact-equality
merge. -/
lemma mergedInnerCoerce_eq_mergedInner (acts fors : List WeeklyAggRow)
    (ha : ∀ r ∈ acts, r.fiscalYear.isInt = true ∧ r.fiscalWeek.isInt = true)
    (hf : ∀ r ∈ fors, r.fiscalYear.isInt = true ∧ r.fiscalWeek.isInt = true) :
    mergedInnerCoerce acts fors = mergedInner acts fors := by
  unfold mergedInnerCoerce mergedInner
  induction acts with
  | nil => rfl
  | cons a acts ih =>
    have haa := ha a (by simp)
    rw [List.flatMap_cons, List.flatMap_cons,
      ih (fun r hr => ha r (by simp [hr]))]
    congr 1
    refine congrArg _ (List.filter_congr ?_)
    intro x hx
    exact mergeKeyMatch_of_int (hf x hx).1 (hf x hx).2 haa.1 haa.2

/-- Claim C8 counterexample: an actual row whose Fiscal Year is stored as
the float 2024.0, against a forecast row with integer year 2024 and
otherwise equal key values.  The only transformation applied before the
merge is the Fiscal Week cast, so the actual table enters the join with its
year cell still the float 2024.0 — not coerced to an integer type —
refuting the claim that both join-key columns are coerced to a shared
numeric type before the inner join is performed.  The join nonetheless
matches the two rows, because pd.merge coerces int and float key columns
to a shared numeric dtype; the year becomes the integer 2024 only in the
post-merge cast of line 127. -/
theorem fiscal_year_enters_merge_uncast :
    castFiscalWeekInt
        [⟨"P1", "Cat", "Var", "Loc", CVal.cFloat 2024, CVal.cInt 1, 1000⟩]
      = some [⟨"P1", "Cat", "Var", "Loc", CVal.cFloat 2024, CVal.cInt 1, 1000⟩] ∧
    (CVal.cFloat 2024).isInt = false ∧
    overviewMergePipeline
        [⟨"P1", "Cat", "Var", "Loc", CVal.cFloat 2024, CVal.cInt 1, 1000⟩]
        [⟨"P1", "Cat", "Var", "Loc", CVal.cInt 2024, CVal.cInt 1, 1100⟩]
      = some [(⟨"P1", "Cat", "Var", "Loc", CVal.cInt 2024, CVal.cInt 1, 1000⟩,
               (1100 : ℚ))] := by
  refine ⟨?_, ?_, ?_⟩ <;> decide

/-- Claim C8 amended: in the final output of the Accuracy Overview merge
pipeline both Fiscal Year and Fiscal Week are integers, but they are not
both coerced ahead of the join: only the Fiscal Week columns are cast
before the merge, and the table entering the merge carries its raw,
uncoerced Fiscal Year cells, which are cast to int only after the merge
(line 127).  No matching rows are lost by this ordering, because the merge
coerces numeric key dtypes: a year stored as a float matches the same year
stored as an integer. -/
theorem normalization_integer_fields
    (acts fors : List WeeklyAggRow)
    (out : List (WeeklyAggRow × ℚ)) (actsN : List WeeklyAggRow)
    (hacts : castFiscalWeekInt acts = some actsN)
    (hout : overviewMergePipeline acts fors = some out) :
    (∀ p ∈ out, p.1.fiscalYear.isInt = true ∧ p.1.fiscalWeek.isInt = true) ∧
    ((∀ r ∈ actsN, r.fiscalWeek.isInt = true) ∧
      actsN.map (fun r => r.fiscalYear) = acts.map (fun r => r.fiscalYear)) ∧
    (∀ z : ℤ, cvalKeyEq (CVal.cFloat (z : ℚ)) (CVal.cInt z) = true) := by
  obtain ⟨hwk, hyr⟩ := castFiscalWeekInt_spec acts actsN hacts
  refine ⟨?_, ⟨hwk, hyr⟩, ?_⟩
  · unfold overviewMergePipeline at hout
    rw [hacts] at hout
    cases hfors : castFiscalWeekInt fors with
    | none => rw [hfors] at hout; simp at hout
    | some forsN =>
      rw [hfors] at hout
      simp only [Option.bind_eq_bind, Option.some_bind] at hout
      obtain ⟨hy, hwkmap⟩ := castMergedYearInt_spec _ _ hout
      intro p hp
      refine ⟨hy p hp, ?_⟩
      have hmem : p.1.fiscalWeek ∈ out.map (fun p => p.1.fiscalWeek) :=
        List.mem_map.mpr ⟨p, hp, rfl⟩
      rw [hwkmap] at hmem
      obtain ⟨m, hm, hmw⟩ := List.mem_map.mp hmem
      have hma := mergedInnerCoerce_fst_mem actsN forsN m hm
      rw [← hmw]
      exact hwk m.1 hma
  · intro z
    simp [cvalKeyEq]

theorem normalization_integer_fields_witness :
    (∀ p ∈ ([(⟨"P1", "Cat", "Var", "Loc", CVal.cInt 2024, CVal.cInt 1, 1000⟩,
            (1100 : ℚ))] : List (WeeklyAggRow × ℚ)),
        p.1.fiscalYear.isInt = true ∧ p.1.fiscalWeek.isInt = true) ∧
    ((∀ r ∈ ([⟨"P1", "Cat", "Var", "Loc", CVal.cFloat 2024, CVal.cInt 1, 1000⟩] :
          List WeeklyAggRow),
        r.fiscalWeek.isInt = true) ∧
      ([(⟨"P1", "Cat", "Var", "Loc", CVal.cFloat 2024, CVal.cInt 1, 1000⟩ :
            WeeklyAggRow)]).map (fun r => r.fiscalYear)
        = ([(⟨"P1", "Cat", "Var", "Loc", CVal.cFloat 2024, CVal.cInt 1, 1000⟩ :
            WeeklyAggRow)]).map (fun r => r.fiscalYear)) ∧
    (∀ z : ℤ, cvalKeyEq (CVal.cFloat (z : ℚ)) (CVal.cInt z) = true) :=
  normalization_integer_fields
    [⟨"P1", "Cat", "Var", "Loc", CVal.cFloat 2024, CVal.cInt 1, 1000⟩]
    [⟨"P1", "Cat", "Var", "Loc", CVal.cInt 2024, CVal.cInt 1, 1100⟩]
    [(⟨"P1", "Cat", "Var", "Loc", CVal.cInt 2024, CVal.cInt 1, 1000⟩, (1100 : ℚ))]
    [⟨"P1", "Cat", "Var", "Loc", CVal.cFloat 2024, CVal.cInt 1, 1000⟩]
    (by decide) (by decide)

/-! The sidebar dimension filters.  Every filter that offers the sentinel
option follows the same pattern: if the selection does not contain the
string All, keep the rows whose field value is in the selection; otherwise
leave the table untouched (src/app.py lines 146-147, 158-159, 170-171,
183-186, 348-349, 621-622, 643-644, 655-656, 667-668, 679-680, 691-692). -/

/-- A value in a filter widget selection: a dimension value, which the
widgets mix freely between text (plant, category, the sentinel All) and
numbers (fiscal year, fiscal week). -/
inductive FilterVal where
  | fvStr (s : String)
  | fvInt (z : ℤ)
deriving DecidableEq

/-- One dimension filter application: the guard `if "All" not in selected`
around `df[df[col].isin(selected)]`. -/
def applyFilter {α : Type} (T : List α) (field : α → FilterVal)
    (selected : List FilterVal) : List α :=
  if FilterVal.fvStr "All" ∈ selected then T
  else T.filter (fun r => decide (field r ∈ selected))

/-- Claim C9: for every table and every dimension filter offering the All
option, applying the filter with a selection containing the sentinel All
returns the table unchanged. -/
theorem filter_all_identity {α : Type} (T : List α) (field : α → FilterVal)
    (selected : List FilterVal)
    (h : FilterVal.fvStr "All" ∈ selected) :
    applyFilter T field selected = T := by
  simp [applyFilter, h]

theorem filter_all_identity_witness :
    applyFilter [(1 : ℤ), 2, 3] (fun z => FilterVal.fvInt z)
      [FilterVal.fvStr "All", FilterVal.fvInt 2] = [(1 : ℤ), 2, 3] :=
  filter_all_identity [(1 : ℤ), 2, 3] (fun z => FilterVal.fvInt z)
    [FilterVal.fvStr "All", FilterVal.fvInt 2] (by decide)

end ForecastApp
